import Mathlib

/-!
Verification of the `encoded2json` pipeline: percent decoding, charset
decoding, `\xNN` escape-sequence decoding, and the structural
(JSON-or-form-urlencoded) parse step, shallowly embedded from
`src/decoder.rs`, `src/parser.rs` and `src/main.rs`.

Bytes are modelled as `Nat` (always < 256 where produced by the functions
below), byte strings as `List Nat`, and Rust `String`/`&str` as Lean
`String` (a list of Unicode scalar values, matching Rust `char` iteration).
-/

/-- Value of one hexadecimal digit character, as in Rust `char::to_digit(16)`.
Non-ASCII characters and all other characters yield `none`. -/
def hexDigit? (c : Char) : Option Nat :=
  if '0' ≤ c ∧ c ≤ '9' then some (c.toNat - '0'.toNat)
  else if 'a' ≤ c ∧ c ≤ 'f' then some (c.toNat - 'a'.toNat + 10)
  else if 'A' ≤ c ∧ c ≤ 'F' then some (c.toNat - 'A'.toNat + 10)
  else none

/-- Hexadecimal value of one byte, as in the `percent-encoding` crate's
internal digit test (ASCII `0-9`, `A-F`, `a-f`). -/
def hexDigitByte? (b : Nat) : Option Nat :=
  if 0x30 ≤ b ∧ b ≤ 0x39 then some (b - 0x30)
  else if 0x41 ≤ b ∧ b ≤ 0x46 then some (b - 0x41 + 10)
  else if 0x61 ≤ b ∧ b ≤ 0x66 then some (b - 0x61 + 10)
  else none

/-- Is a byte a UTF-8 continuation byte (`0x80..=0xBF`)? -/
def isCont (b : Nat) : Bool := 0x80 ≤ b && b ≤ 0xBF

/-- Admissible second byte of a three-byte UTF-8 sequence with lead `b1`
(restricted ranges for `0xE0` and `0xED`, per the UTF-8 definition). -/
def cont2ok (b1 b2 : Nat) : Bool :=
  if b1 = 0xE0 then 0xA0 ≤ b2 && b2 ≤ 0xBF
  else if b1 = 0xED then 0x80 ≤ b2 && b2 ≤ 0x9F
  else isCont b2

/-- Admissible second byte of a four-byte UTF-8 sequence with lead `b1`
(restricted ranges for `0xF0` and `0xF4`). -/
def cont3ok (b1 b2 : Nat) : Bool :=
  if b1 = 0xF0 then 0x90 ≤ b2 && b2 ≤ 0xBF
  else if b1 = 0xF4 then 0x80 ≤ b2 && b2 ≤ 0x8F
  else isCont b2

/-- The Unicode replacement character U+FFFD. -/
def repl : Char := Char.ofNat 0xFFFD

/-- Lossy UTF-8 decoding of a byte sequence, as in Rust
`String::from_utf8_lossy` (and `encoding_rs` UTF-8 decoding): each maximal
invalid subpart is replaced by one U+FFFD; a valid prefix of a longer
sequence is consumed together with the replacement, and the byte that broke
the sequence is examined afresh. -/
def utf8LossyF : Nat → List Nat → List Char
  | 0, _ => []
  | _ + 1, [] => []
  | fuel + 1, b1 :: rest =>
    if b1 < 0x80 then Char.ofNat b1 :: utf8LossyF fuel rest
    else if 0xC2 ≤ b1 ∧ b1 ≤ 0xDF then
      match rest with
      | [] => [repl]
      | b2 :: rest2 =>
        if isCont b2 then
          Char.ofNat ((b1 - 0xC0) * 0x40 + (b2 - 0x80)) :: utf8LossyF fuel rest2
        else repl :: utf8LossyF fuel rest
    else if 0xE0 ≤ b1 ∧ b1 ≤ 0xEF then
      match rest with
      | [] => [repl]
      | b2 :: rest2 =>
        if cont2ok b1 b2 then
          match rest2 with
          | [] => [repl]
          | b3 :: rest3 =>
            if isCont b3 then
              Char.ofNat (((b1 - 0xE0) * 0x40 + (b2 - 0x80)) * 0x40 + (b3 - 0x80))
                :: utf8LossyF fuel rest3
            else repl :: utf8LossyF fuel rest2
        else repl :: utf8LossyF fuel rest
    else if 0xF0 ≤ b1 ∧ b1 ≤ 0xF4 then
      match rest with
      | [] => [repl]
      | b2 :: rest2 =>
        if cont3ok b1 b2 then
          match rest2 with
          | [] => [repl]
          | b3 :: rest3 =>
            if isCont b3 then
              match rest3 with
              | [] => [repl]
              | b4 :: rest4 =>
                if isCont b4 then
                  Char.ofNat ((((b1 - 0xF0) * 0x40 + (b2 - 0x80)) * 0x40 + (b3 - 0x80)) * 0x40
                      + (b4 - 0x80)) :: utf8LossyF fuel rest4
                else repl :: utf8LossyF fuel rest3
            else repl :: utf8LossyF fuel rest2
        else repl :: utf8LossyF fuel rest
    else repl :: utf8LossyF fuel rest

/-- Lossy UTF-8 decoding: every step of `utf8LossyF` consumes at least one
byte, so fuel equal to the length never runs out and this is the untruncated
decoding function. -/
def utf8Lossy (l : List Nat) : List Char := utf8LossyF l.length l

/-- Strict UTF-8 decoding of a byte sequence, as in Rust
`std::str::from_utf8`: `none` exactly when the bytes are not valid UTF-8. -/
def utf8DecodeF : Nat → List Nat → Option (List Char)
  | 0, l => if l.isEmpty then some [] else none
  | _ + 1, [] => some []
  | fuel + 1, b1 :: rest =>
    if b1 < 0x80 then (utf8DecodeF fuel rest).map (Char.ofNat b1 :: ·)
    else if 0xC2 ≤ b1 ∧ b1 ≤ 0xDF then
      match rest with
      | [] => none
      | b2 :: rest2 =>
        if isCont b2 then
          (utf8DecodeF fuel rest2).map (Char.ofNat ((b1 - 0xC0) * 0x40 + (b2 - 0x80)) :: ·)
        else none
    else if 0xE0 ≤ b1 ∧ b1 ≤ 0xEF then
      match rest with
      | [] => none
      | b2 :: rest2 =>
        if cont2ok b1 b2 then
          match rest2 with
          | [] => none
          | b3 :: rest3 =>
            if isCont b3 then
              (utf8DecodeF fuel rest3).map
                (Char.ofNat (((b1 - 0xE0) * 0x40 + (b2 - 0x80)) * 0x40 + (b3 - 0x80)) :: ·)
            else none
        else none
    else if 0xF0 ≤ b1 ∧ b1 ≤ 0xF4 then
      match rest with
      | [] => none
      | b2 :: rest2 =>
        if cont3ok b1 b2 then
          match rest2 with
          | [] => none
          | b3 :: rest3 =>
            if isCont b3 then
              match rest3 with
              | [] => none
              | b4 :: rest4 =>
                if isCont b4 then
                  (utf8DecodeF fuel rest4).map
                    (Char.ofNat ((((b1 - 0xF0) * 0x40 + (b2 - 0x80)) * 0x40 + (b3 - 0x80)) * 0x40
                        + (b4 - 0x80)) :: ·)
                else none
            else none
        else none
    else none

/-- Strict UTF-8 decoding; fuel equal to the length never runs out, as for
`utf8LossyF`. -/
def utf8Decode? (l : List Nat) : Option (List Char) := utf8DecodeF l.length l

/-- UTF-8 encoding of one Unicode scalar value. -/
def utf8EncodeChar (c : Char) : List Nat :=
  let n := c.toNat
  if n < 0x80 then [n]
  else if n < 0x800 then [0xC0 + n / 0x40, 0x80 + n % 0x40]
  else if n < 0x10000 then
    [0xE0 + n / 0x1000, 0x80 + n / 0x40 % 0x40, 0x80 + n % 0x40]
  else
    [0xF0 + n / 0x40000, 0x80 + n / 0x1000 % 0x40, 0x80 + n / 0x40 % 0x40, 0x80 + n % 0x40]

/-- UTF-8 encoding of a character sequence (Rust `str::as_bytes`). -/
def utf8Encode (cs : List Char) : List Nat := cs.flatMap utf8EncodeChar

/-- Percent decoding, as in the `percent-encoding` crate's `percent_decode`:
every `%` followed by two hexadecimal digit bytes is replaced by the byte
they denote; a `%` not so followed is passed through literally and the
following bytes are examined afresh. -/
def percent_decode : List Nat → List Nat
  | [] => []
  | 0x25 :: h :: l :: rest2 =>
    match hexDigitByte? h, hexDigitByte? l with
    | some hi, some lo => (hi * 16 + lo) :: percent_decode rest2
    | _, _ => 0x25 :: percent_decode (h :: l :: rest2)
  | b :: rest => b :: percent_decode rest

/-- `u8::from_str_radix(s, 16)` for a two-character string `[h1, h2]`:
two hex digits give their value; a leading `+` with one hex digit gives that
digit; the string `-0` gives `0` (unsigned parsing accepts a sign and `0 - 0`
does not underflow); everything else fails. -/
def parseU8Hex (h1 h2 : Char) : Option Nat :=
  if h1 = '+' then hexDigit? h2
  else if h1 = '-' then (if h2 = '0' then some 0 else none)
  else
    match hexDigit? h1, hexDigit? h2 with
    | some a, some b => some (16 * a + b)
    | _, _ => none

namespace ParserRs

/-- Scanning loop of `decode_escape_sequences` in `src/parser.rs`: walks the
characters with one-character lookahead, accumulating the bytes of valid
`\xNN` escapes in `byteSeq` and flushing them through lossy UTF-8 decoding
when a non-escape character or the end of input is reached. An invalid hex
pair is emitted as the literal four characters; a `\x` truncated at
end-of-input is emitted as `\x` plus the one lookahead character when
exactly one was available. -/
def decodeAux : List Char → List Nat → List Char
  | [], byteSeq => if byteSeq.isEmpty then [] else utf8Lossy byteSeq
  | c :: rest, byteSeq =>
    if c == '\\' && rest.head? == some 'x' then
      match rest with
      | [] => []  -- unreachable: the guard requires `rest` to begin with 'x'
      | _x :: rest1 =>
        match rest1 with
        | [] => ['\\', 'x'] ++ decodeAux [] byteSeq
        | [h1] => ['\\', 'x', h1] ++ decodeAux [] byteSeq
        | h1 :: h2 :: rest2 =>
          match parseU8Hex h1 h2 with
          | some b => decodeAux rest2 (byteSeq ++ [b])
          | none => ['\\', 'x', h1, h2] ++ decodeAux rest2 byteSeq
    else
      (if byteSeq.isEmpty then [] else utf8Lossy byteSeq) ++ c :: decodeAux rest []
termination_by structural cs _ => cs

/-- `decode_escape_sequences` of `src/parser.rs`. -/
def decode_escape_sequences (s : String) : String :=
  String.mk (decodeAux s.data [])

end ParserRs

namespace DecoderRs

/-- Scanning loop of `decode_escape_sequences` in `src/decoder.rs`. Identical
to the `src/parser.rs` loop except when an escape is truncated at
end-of-input: `(chars.next(), chars.next())` consumes up to two lookahead
characters, and when fewer than two were available only the literal `\x` is
appended — a single available lookahead character is consumed and dropped. -/
def decodeAux : List Char → List Nat → List Char
  | [], byteSeq => if byteSeq.isEmpty then [] else utf8Lossy byteSeq
  | c :: rest, byteSeq =>
    if c == '\\' && rest.head? == some 'x' then
      match rest with
      | [] => []  -- unreachable: the guard requires `rest` to begin with 'x'
      | _x :: rest1 =>
        match rest1 with
        | h1 :: h2 :: rest2 =>
          match parseU8Hex h1 h2 with
          | some b => decodeAux rest2 (byteSeq ++ [b])
          | none => ['\\', 'x', h1, h2] ++ decodeAux rest2 byteSeq
        | [] => ['\\', 'x'] ++ decodeAux [] byteSeq
        | [_h1] => ['\\', 'x'] ++ decodeAux [] byteSeq  -- the one lookahead character was consumed and is dropped
    else
      (if byteSeq.isEmpty then [] else utf8Lossy byteSeq) ++ c :: decodeAux rest []
termination_by structural cs _ => cs

/-- `decode_escape_sequences` of `src/decoder.rs`. -/
def decode_escape_sequences (s : String) : String :=
  String.mk (decodeAux s.data [])

end DecoderRs

/-- `serde_json::Value` with the `preserve_order` map (objects keep insertion
order). Numbers are kept as their grammatical lexeme, which is all the
pipeline ever does with them. -/
inductive Json : Type where
  | null : Json
  | bool (b : Bool) : Json
  | num (lexeme : String) : Json
  | str (s : String) : Json
  | arr (items : List Json) : Json
  | obj (entries : List (String × Json)) : Json

/-- Insertion into an insertion-order-preserving map (`serde_json::Map` with
`preserve_order`): an existing key keeps its position and gets the new value;
a new key is appended at the end. -/
def mapInsert (m : List (String × Json)) (k : String) (v : Json) :
    List (String × Json) :=
  if m.any (fun p => p.1 == k) then
    m.map (fun p => if p.1 == k then (k, v) else p)
  else m ++ [(k, v)]

/-- Lookup in the insertion-order map. -/
def mapLookup (m : List (String × Json)) (k : String) : Option Json :=
  match m with
  | [] => none
  | p :: rest => if p.1 == k then some p.2 else mapLookup rest k

/-- Rust `str::split('[')`: the segments of a key between `[` characters.
Always yields at least one segment. -/
def splitLB : List Char → List (List Char)
  | [] => [[]]
  | c :: rest =>
    if c == '[' then [] :: splitLB rest
    else
      match splitLB rest with
      | s :: ss => (c :: s) :: ss
      | [] => [[c]]  -- unreachable: splitLB never returns []

/-- Rust `str::trim_end_matches(']')`: drop every trailing `]`. -/
def trimEndRB (cs : List Char) : List Char :=
  ((cs.reverse.dropWhile (fun c => c == ']')).reverse)

/-- `add_or_update_value` of `src/parser.rs`. `none` models the
`panic!("Unexpected key format")` on a key that splits into more than two
segments. A plain key inserts/overwrites a JSON String; `key[]` appends to an
Array created on demand; `key[sub]` inserts into an Object created on demand;
when the existing value at the key has the wrong shape, the `if let` fails
silently and the map is returned unchanged. -/
def add_or_update_value (result : List (String × Json)) (key value : String) :
    Option (List (String × Json)) :=
  match splitLB key.data with
  | [mainKey] => some (mapInsert result (String.mk mainKey) (Json.str value))
  | [mainKey, subKey0] =>
    let mainKeyS := String.mk mainKey
    let subKey := String.mk (trimEndRB subKey0)
    if subKey = "" then
      match mapLookup result mainKeyS with
      | none => some (result ++ [(mainKeyS, Json.arr [Json.str value])])
      | some (Json.arr xs) =>
        some (mapInsert result mainKeyS (Json.arr (xs ++ [Json.str value])))
      | some _ => some result
    else
      match mapLookup result mainKeyS with
      | none => some (result ++ [(mainKeyS, Json.obj [(subKey, Json.str value)])])
      | some (Json.obj ms) =>
        some (mapInsert result mainKeyS (Json.obj (mapInsert ms subKey (Json.str value))))
      | some _ => some result
  | _ => none

/-- Split a byte sequence on a separator byte (`slice::split`). -/
def splitOnByte (sep : Nat) : List Nat → List (List Nat)
  | [] => [[]]
  | b :: rest =>
    if b = sep then [] :: splitOnByte sep rest
    else
      match splitOnByte sep rest with
      | s :: ss => (b :: s) :: ss
      | [] => [[b]]  -- unreachable: splitOnByte never returns []

/-- Split at the first `=` byte (`splitn(2, '=')`): the name is everything
before it, the value everything after, and an absent `=` gives an empty
value. -/
def splitFirstEq : List Nat → List Nat × List Nat
  | [] => ([], [])
  | b :: rest =>
    if b = 0x3D then ([], rest)
    else
      let kv := splitFirstEq rest
      (b :: kv.1, kv.2)

/-- Decoding of one form component in `url::form_urlencoded`: replace `+`
by space, percent-decode, then lossy UTF-8. -/
def formComponent (bs : List Nat) : String :=
  String.mk (utf8Lossy (percent_decode (bs.map (fun b => if b = 0x2B then 0x20 else b))))

/-- `url::form_urlencoded::parse`: split on `&`, skip empty pieces, split
each piece at its first `=`, and decode name and value independently. -/
def formPairs (bs : List Nat) : List (String × String) :=
  (splitOnByte 0x26 bs).filterMap (fun piece =>
    if piece.isEmpty then none
    else
      let kv := splitFirstEq piece
      some (formComponent kv.1, formComponent kv.2))

/-- The pair-folding loop of `FormURLEncodedParser::parse`: fold every pair
into the map with `add_or_update_value`, aborting on its panic. -/
def formFold (pairs : List (String × String)) :
    Option (List (String × Json)) :=
  pairs.foldlM (fun m p => add_or_update_value m p.1 p.2) []

/-- JSON whitespace skipping (space, tab, line feed, carriage return). -/
def jSkipWs : List Char → List Char
  | [] => []
  | c :: rest =>
    if c == ' ' || c == '\t' || c == '\n' || c == '\r' then jSkipWs rest
    else c :: rest

/-- The character denoted by a single-character JSON string escape. -/
def jEscChar? : Char → Option Char
  | '"' => some '"'
  | '\\' => some '\\'
  | '/' => some '/'
  | 'b' => some (Char.ofNat 8)
  | 'f' => some (Char.ofNat 12)
  | 'n' => some '\n'
  | 'r' => some '\r'
  | 't' => some '\t'
  | _ => none

/-- Four hexadecimal digits of a `\uXXXX` escape. -/
def jHex4? : List Char → Option (Nat × List Char)
  | a :: b :: c :: d :: rest =>
    match hexDigit? a, hexDigit? b, hexDigit? c, hexDigit? d with
    | some x, some y, some z, some w => some (((x * 16 + y) * 16 + z) * 16 + w, rest)
    | _, _, _, _ => none
  | _ => none

/-- JSON string body after the opening quote: the decoded characters and the
input after the closing quote. Unescaped control characters, bad escapes and
lone surrogates are errors, as in `serde_json`. -/
def jString? : Nat → List Char → Option (List Char × List Char)
  | 0, _ => none
  | _ + 1, [] => none
  | fuel + 1, c :: rest =>
    if c == '"' then some ([], rest)
    else if c == '\\' then
      match rest with
      | [] => none
      | e :: rest2 =>
        if e == 'u' then
          match jHex4? rest2 with
          | none => none
          | some (n, rest3) =>
            if 0xD800 ≤ n ∧ n ≤ 0xDBFF then
              match rest3 with
              | '\\' :: 'u' :: rest4 =>
                match jHex4? rest4 with
                | some (n2, rest5) =>
                  if 0xDC00 ≤ n2 ∧ n2 ≤ 0xDFFF then
                    match jString? fuel rest5 with
                    | some (tail, rem) =>
                      some (Char.ofNat (0x10000 + (n - 0xD800) * 0x400 + (n2 - 0xDC00)) :: tail,
                        rem)
                    | none => none
                  else none
                | none => none
              | _ => none
            else if 0xDC00 ≤ n ∧ n ≤ 0xDFFF then none
            else
              match jString? fuel rest3 with
              | some (tail, rem) => some (Char.ofNat n :: tail, rem)
              | none => none
        else
          match jEscChar? e with
          | some ec =>
            match jString? fuel rest2 with
            | some (tail, rem) => some (ec :: tail, rem)
            | none => none
          | none => none
    else if c.toNat < 0x20 then none
    else
      match jString? fuel rest with
      | some (tail, rem) => some (c :: tail, rem)
      | none => none

/-- Longest prefix of decimal digits. -/
def jTakeDigits : List Char → List Char × List Char
  | [] => ([], [])
  | c :: rest =>
    if c.isDigit then
      let dr := jTakeDigits rest
      (c :: dr.1, dr.2)
    else ([], c :: rest)

/-- JSON integer part after the optional sign: `0`, or a nonzero digit
followed by digits. -/
def jInt? : List Char → Option (List Char × List Char)
  | [] => none
  | c :: rest =>
    if c == '0' then some (['0'], rest)
    else if c.isDigit then
      let dr := jTakeDigits rest
      some (c :: dr.1, dr.2)
    else none

/-- Optional JSON fraction part: `.` followed by at least one digit. -/
def jFrac? : List Char → Option (List Char × List Char)
  | '.' :: rest =>
    let dr := jTakeDigits rest
    if dr.1.isEmpty then none else some ('.' :: dr.1, dr.2)
  | cs => some ([], cs)

/-- Optional JSON exponent part: `e`/`E`, optional sign, at least one digit. -/
def jExp? : List Char → Option (List Char × List Char)
  | [] => some ([], [])
  | c :: rest =>
    if c == 'e' || c == 'E' then
      match rest with
      | [] => none
      | s :: rest2 =>
        if s == '+' || s == '-' then
          let dr := jTakeDigits rest2
          if dr.1.isEmpty then none else some (c :: s :: dr.1, dr.2)
        else
          let dr := jTakeDigits rest
          if dr.1.isEmpty then none else some (c :: dr.1, dr.2)
    else some ([], c :: rest)

/-- A JSON number lexeme: optional `-`, integer part, optional fraction and
exponent. -/
def jNumber? (cs : List Char) : Option (List Char × List Char) :=
  let sc : List Char × List Char :=
    match cs with
    | '-' :: rest => (['-'], rest)
    | _ => ([], cs)
  match jInt? sc.2 with
  | none => none
  | some (i, cs2) =>
    match jFrac? cs2 with
    | none => none
    | some (f, cs3) =>
      match jExp? cs3 with
      | none => none
      | some (e, cs4) => some (sc.1 ++ i ++ f ++ e, cs4)

mutual

/-- One JSON value at the head of the input (whitespace already skipped),
per the standard JSON grammar as implemented by `serde_json`. -/
def jValue? : Nat → List Char → Option (Json × List Char)
  | 0, _ => none
  | fuel + 1, cs =>
    match cs with
    | 'n' :: 'u' :: 'l' :: 'l' :: rest => some (Json.null, rest)
    | 't' :: 'r' :: 'u' :: 'e' :: rest => some (Json.bool true, rest)
    | 'f' :: 'a' :: 'l' :: 's' :: 'e' :: rest => some (Json.bool false, rest)
    | '"' :: rest =>
      match jString? (rest.length + 1) rest with
      | some (content, rest2) => some (Json.str (String.mk content), rest2)
      | none => none
    | '[' :: rest =>
      match jSkipWs rest with
      | ']' :: rest2 => some (Json.arr [], rest2)
      | rest1 =>
        match jElems? fuel rest1 with
        | some (xs, rest2) => some (Json.arr xs, rest2)
        | none => none
    | '{' :: rest =>
      match jSkipWs rest with
      | '}' :: rest2 => some (Json.obj [], rest2)
      | rest1 =>
        match jMembers? fuel rest1 with
        | some (ms, rest2) =>
          some (Json.obj (ms.foldl (fun m kv => mapInsert m kv.1 kv.2) []), rest2)
        | none => none
    | c :: rest =>
      if c == '-' || c.isDigit then
        match jNumber? (c :: rest) with
        | some (lex, rest2) => some (Json.num (String.mk lex), rest2)
        | none => none
      else none
    | [] => none

/-- Comma-separated JSON array elements up to the closing bracket. -/
def jElems? : Nat → List Char → Option (List Json × List Char)
  | 0, _ => none
  | fuel + 1, cs =>
    match jValue? fuel cs with
    | none => none
    | some (v, rest) =>
      match jSkipWs rest with
      | ',' :: rest2 =>
        match jElems? fuel (jSkipWs rest2) with
        | some (xs, rest3) => some (v :: xs, rest3)
        | none => none
      | ']' :: rest2 => some ([v], rest2)
      | _ => none

/-- Comma-separated JSON object members up to the closing brace, in source
order. -/
def jMembers? : Nat → List Char → Option (List (String × Json) × List Char)
  | 0, _ => none
  | fuel + 1, cs =>
    match cs with
    | '"' :: rest =>
      match jString? (rest.length + 1) rest with
      | none => none
      | some (key, rest1) =>
        match jSkipWs rest1 with
        | ':' :: rest2 =>
          match jValue? fuel (jSkipWs rest2) with
          | none => none
          | some (v, rest3) =>
            match jSkipWs rest3 with
            | ',' :: rest4 =>
              match jMembers? fuel (jSkipWs rest4) with
              | some (ms, rest5) => some ((String.mk key, v) :: ms, rest5)
              | none => none
            | '}' :: rest4 => some ([(String.mk key, v)], rest4)
            | _ => none
        | _ => none
    | _ => none

end

/-- `serde_json::from_slice`/`from_str` on the UTF-8 text of a string: one
JSON value surrounded by optional whitespace and nothing else. -/
def jsonParse (s : String) : Option Json :=
  match jValue? (s.data.length + 1) (jSkipWs s.data) with
  | some (v, rest) => if (jSkipWs rest).isEmpty then some v else none
  | none => none

namespace JsonParser

/-- `JsonParser::parse` of `src/parser.rs`: require valid UTF-8 (else
`Value::Null`), resolve `\xNN` escapes with the `src/parser.rs` decoder, then
parse as JSON, with `Value::Null` on any JSON-parse failure
(`unwrap_or(Value::Null)`). -/
def parse (input : List Nat) : Json :=
  match utf8Decode? input with
  | none => Json.null
  | some cs =>
    match jsonParse (ParserRs.decode_escape_sequences (String.mk cs)) with
    | some v => v
    | none => Json.null

end JsonParser

namespace FormURLEncodedParser

/-- `FormURLEncodedParser::parse` of `src/parser.rs`: require valid UTF-8
(else `Value::Null`), resolve `\xNN` escapes, split into form pairs and fold
them into an object. `none` models the `panic!` of `add_or_update_value`. -/
def parse (input : List Nat) : Option Json :=
  match utf8Decode? input with
  | none => some Json.null
  | some cs =>
    let decoded := ParserRs.decode_escape_sequences (String.mk cs)
    match formFold (formPairs (utf8Encode decoded.data)) with
    | some m => some (Json.obj m)
    | none => none

end FormURLEncodedParser

/-- Modelled from the spec: `parse_to_json`, the Structural Parser entry
point called by `src/main.rs`, is absent from `src/parser.rs` as provided.
Per §4.4 of the spec it first attempts to parse the escape-resolved text
under the standard JSON grammar and returns the result unchanged on success;
on any JSON-parse failure it instead parses the same text as
ampersand-separated `key=value` pairs (standard form decoding) folded into a
JSON Object by the Key-Path Inserter, whose `KeyFormatFault` (`none`) is the
only remaining failure. -/
def parse_to_json (s : String) : Option Json :=
  match jsonParse s with
  | some v => some v
  | none => (formFold (formPairs (utf8Encode s.data))).map Json.obj

/-- An `encoding_rs::Encoding` as used by `src/decoder.rs`: a name and a
decode operation returning the (possibly replacement-bearing) text and the
`had_errors` flag. -/
structure Encoding : Type where
  name : String
  decode : List Nat → String × Bool

/-- The `encoding_rs` UTF-8 encoding: lossy text plus `had_errors` exactly
when the bytes are not valid UTF-8. (The `encoding_rs` convenience `decode`
also sniffs byte-order marks; no input considered here begins with one.) -/
def UTF_8 : Encoding :=
  { name := "UTF-8"
    decode := fun bs => (String.mk (utf8Lossy bs), (utf8Decode? bs).isNone) }

/-- `decode_input` of `src/decoder.rs`: percent-decode the UTF-8 bytes of
the input, decode them with the selected encoding, fail with the fixed
message `"EUC-KR decoding error"` when the encoding reported errors, and
otherwise resolve `\xNN` escapes with the `src/decoder.rs` decoder. -/
def decode_input (input : String) (encoding : Encoding) : Except String String :=
  let percentDecoded := percent_decode (utf8Encode input.data)
  let r := encoding.decode percentDecoded
  if r.2 then Except.error "EUC-KR decoding error"
  else Except.ok (DecoderRs.decode_escape_sequences r.1)

/-- Does `pat` occur as a contiguous substring of `s`? (Used to state that an
error message carries a charset name.) -/
def strContains (s pat : String) : Bool :=
  (List.range (s.data.length + 1)).any
    (fun i => (s.data.drop i).take pat.data.length == pat.data)

/-- No occurrence of the two-character sequence `\x` (backslash then `x`):
the texts on which the Escape-Sequence Decoder has nothing to decode. -/
def noBX : List Char → Bool
  | [] => true
  | [_] => true
  | c1 :: c2 :: rest => !(c1 == '\\' && c2 == 'x') && noBX (c2 :: rest)

/-- The concatenated text of a run of `\xNN` escapes, one per character
pair. -/
def escRun (ps : List (Char × Char)) : List Char :=
  ps.flatMap (fun p => ['\\', 'x', p.1, p.2])

/-- Is `c` a hexadecimal digit character? -/
def isHexChar (c : Char) : Bool := (hexDigit? c).isSome

/-- The byte denoted by a two-hex-digit pair. -/
def hexPairVal (p : Char × Char) : Nat :=
  16 * ((hexDigit? p.1).getD 0) + (hexDigit? p.2).getD 0

/-- Does the escape-decoding scan of this text end in a `\x` escape truncated
with exactly one character remaining after the `x`? Mirrors the shared scan
structure of the two `decode_escape_sequences` implementations; this is the
single state in which they differ. -/
def escTrunc1 : List Char → Bool
  | [] => false
  | c :: rest =>
    if c == '\\' && rest.head? == some 'x' then
      match rest with
      | [] => false  -- unreachable: the guard requires `rest` to begin with 'x'
      | _x :: rest1 =>
        match rest1 with
        | [] => false
        | [_] => true
        | _ :: _ :: rest2 => escTrunc1 rest2
    else escTrunc1 rest

/-! Step lemmas for the two escape-decoding loops, one per branch of the
Rust `while let` body. -/

theorem utf8Lossy_nil : utf8Lossy [] = [] := rfl

theorem flush_eq (seq : List Nat) :
    (if seq.isEmpty then ([] : List Char) else utf8Lossy seq) = utf8Lossy seq := by
  cases seq <;> simp [utf8Lossy, utf8LossyF]

theorem decodeAuxP_nil (seq : List Nat) :
    ParserRs.decodeAux [] seq = if seq.isEmpty then [] else utf8Lossy seq := by
  rw [ParserRs.decodeAux.eq_def]

theorem decodeAuxP_lit (c : Char) (rest : List Char) (seq : List Nat)
    (h : (c == '\\' && rest.head? == some 'x') = false) :
    ParserRs.decodeAux (c :: rest) seq =
      (if seq.isEmpty then [] else utf8Lossy seq) ++ c :: ParserRs.decodeAux rest [] := by
  rw [ParserRs.decodeAux.eq_def]
  simp [h]

theorem decodeAuxP_esc0 (seq : List Nat) :
    ParserRs.decodeAux ['\\', 'x'] seq = ['\\', 'x'] ++ ParserRs.decodeAux [] seq := by
  rw [ParserRs.decodeAux.eq_def]
  simp

theorem decodeAuxP_esc1 (h1 : Char) (seq : List Nat) :
    ParserRs.decodeAux ['\\', 'x', h1] seq = ['\\', 'x', h1] ++ ParserRs.decodeAux [] seq := by
  rw [ParserRs.decodeAux.eq_def]
  simp

theorem decodeAuxP_esc2 (h1 h2 : Char) (rest2 : List Char) (seq : List Nat) :
    ParserRs.decodeAux ('\\' :: 'x' :: h1 :: h2 :: rest2) seq =
      match parseU8Hex h1 h2 with
      | some b => ParserRs.decodeAux rest2 (seq ++ [b])
      | none => ['\\', 'x', h1, h2] ++ ParserRs.decodeAux rest2 seq := by
  rw [ParserRs.decodeAux.eq_def]
  simp

theorem decodeAuxD_nil (seq : List Nat) :
    DecoderRs.decodeAux [] seq = if seq.isEmpty then [] else utf8Lossy seq := by
  rw [DecoderRs.decodeAux.eq_def]

theorem decodeAuxD_lit (c : Char) (rest : List Char) (seq : List Nat)
    (h : (c == '\\' && rest.head? == some 'x') = false) :
    DecoderRs.decodeAux (c :: rest) seq =
      (if seq.isEmpty then [] else utf8Lossy seq) ++ c :: DecoderRs.decodeAux rest [] := by
  rw [DecoderRs.decodeAux.eq_def]
  simp [h]

theorem decodeAuxD_esc0 (seq : List Nat) :
    DecoderRs.decodeAux ['\\', 'x'] seq = ['\\', 'x'] ++ DecoderRs.decodeAux [] seq := by
  rw [DecoderRs.decodeAux.eq_def]
  simp

theorem decodeAuxD_esc1 (h1 : Char) (seq : List Nat) :
    DecoderRs.decodeAux ['\\', 'x', h1] seq = ['\\', 'x'] ++ DecoderRs.decodeAux [] seq := by
  rw [DecoderRs.decodeAux.eq_def]
  simp

theorem decodeAuxD_esc2 (h1 h2 : Char) (rest2 : List Char) (seq : List Nat) :
    DecoderRs.decodeAux ('\\' :: 'x' :: h1 :: h2 :: rest2) seq =
      match parseU8Hex h1 h2 with
      | some b => DecoderRs.decodeAux rest2 (seq ++ [b])
      | none => ['\\', 'x', h1, h2] ++ DecoderRs.decodeAux rest2 seq := by
  rw [DecoderRs.decodeAux.eq_def]
  simp

theorem noBX_cons_head (c c2 : Char) (s : List Char) (h : noBX (c :: c2 :: s) = true) :
    (c == '\\' && c2 == 'x') = false ∧ noBX (c2 :: s) = true := by
  rw [noBX] at h
  simp only [Bool.and_eq_true, Bool.not_eq_true'] at h
  exact h

theorem noBX_tail (c : Char) (s : List Char) (h : noBX (c :: s) = true) :
    noBX s = true := by
  cases s with
  | nil => rfl
  | cons c2 s' => exact (noBX_cons_head c c2 s' h).2

theorem decodeAuxP_append (s t : List Char)
    (ht : (t.head? == some 'x') = false) (hs : noBX s = true) :
    ParserRs.decodeAux (s ++ t) [] = s ++ ParserRs.decodeAux t [] := by
  induction s with
  | nil => simp
  | cons c s' ih =>
    have hg : (c == '\\' && ((s' ++ t).head? == some 'x')) = false := by
      cases s' with
      | nil => simp [ht]
      | cons c2 s'' =>
        have h2 := (noBX_cons_head c c2 s'' hs).1
        simpa using h2
    rw [List.cons_append, decodeAuxP_lit c (s' ++ t) [] hg]
    simp [ih (noBX_tail c s' hs)]

theorem decodeAuxD_append (s t : List Char)
    (ht : (t.head? == some 'x') = false) (hs : noBX s = true) :
    DecoderRs.decodeAux (s ++ t) [] = s ++ DecoderRs.decodeAux t [] := by
  induction s with
  | nil => simp
  | cons c s' ih =>
    have hg : (c == '\\' && ((s' ++ t).head? == some 'x')) = false := by
      cases s' with
      | nil => simp [ht]
      | cons c2 s'' =>
        have h2 := (noBX_cons_head c c2 s'' hs).1
        simpa using h2
    rw [List.cons_append, decodeAuxD_lit c (s' ++ t) [] hg]
    simp [ih (noBX_tail c s' hs)]

theorem decodeAuxP_id (s : List Char) (hs : noBX s = true) :
    ParserRs.decodeAux s [] = s := by
  have h := decodeAuxP_append s [] (by simp) hs
  simpa [decodeAuxP_nil] using h

theorem decodeAuxD_id (s : List Char) (hs : noBX s = true) :
    DecoderRs.decodeAux s [] = s := by
  have h := decodeAuxD_append s [] (by simp) hs
  simpa [decodeAuxD_nil] using h

/-- C8: for every text s containing no `\x` sequences, the Escape-Sequence
Decoder (in both of its implementations, `src/parser.rs` and
`src/decoder.rs`) is the identity and hence idempotent:
decode(decode(s)) == decode(s) == s. -/
theorem escape_decoder_identity_c8 (s : String) (h : noBX s.data = true) :
    ParserRs.decode_escape_sequences s = s ∧
    ParserRs.decode_escape_sequences (ParserRs.decode_escape_sequences s) = s ∧
    DecoderRs.decode_escape_sequences s = s ∧
    DecoderRs.decode_escape_sequences (DecoderRs.decode_escape_sequences s) = s := by
  have hp : ParserRs.decode_escape_sequences s = s := by
    show String.mk (ParserRs.decodeAux s.data []) = s
    rw [decodeAuxP_id s.data h]
  have hd : DecoderRs.decode_escape_sequences s = s := by
    show String.mk (DecoderRs.decodeAux s.data []) = s
    rw [decodeAuxD_id s.data h]
  exact ⟨hp, by rw [hp, hp], hd, by rw [hd, hd]⟩

/-- Witness for C8 at the concrete escape-free text "hello". -/
theorem escape_decoder_identity_c8_witness :
    ParserRs.decode_escape_sequences "hello" = "hello" ∧
    ParserRs.decode_escape_sequences (ParserRs.decode_escape_sequences "hello") = "hello" ∧
    DecoderRs.decode_escape_sequences "hello" = "hello" ∧
    DecoderRs.decode_escape_sequences (DecoderRs.decode_escape_sequences "hello") = "hello" :=
  escape_decoder_identity_c8 "hello" (by rfl)

/-- C3 counterexample: the claim says every Escape-Sequence Decoder
implementation preserves the one lookahead character of a truncated escape,
and in particular decode("hello\x6") = "hello\x6"; the `src/decoder.rs`
implementation instead drops the character and yields "hello\x". -/
theorem truncated_escape_c3_counterexample :
    DecoderRs.decode_escape_sequences "hello\\x6" = "hello\\x" ∧
    ("hello\\x" : String) ≠ "hello\\x6" :=
  ⟨by decide, by decide⟩

/-- C3 (amended): on a text that is an escape-free prefix followed by a
`\x` escape truncated at end-of-input, the `src/parser.rs` decoder appends
the literal `\x` plus the one lookahead character if exactly one was
available (so decode("hello\x6") = "hello\x6"), while the `src/decoder.rs`
decoder emits only the literal `\x` in the one-lookahead-character case,
dropping that character; a trailing `\x` with nothing after it is emitted as
exactly `\x` by both. -/
theorem truncated_escape_c3 (s : List Char) (c : Char) (hs : noBX s = true) :
    ParserRs.decode_escape_sequences (String.mk (s ++ ['\\', 'x', c])) =
      String.mk (s ++ ['\\', 'x', c]) ∧
    DecoderRs.decode_escape_sequences (String.mk (s ++ ['\\', 'x', c])) =
      String.mk (s ++ ['\\', 'x']) ∧
    ParserRs.decode_escape_sequences (String.mk (s ++ ['\\', 'x'])) =
      String.mk (s ++ ['\\', 'x']) ∧
    DecoderRs.decode_escape_sequences (String.mk (s ++ ['\\', 'x'])) =
      String.mk (s ++ ['\\', 'x']) := by
  refine ⟨?_, ?_, ?_, ?_⟩
  · show String.mk (ParserRs.decodeAux (s ++ ['\\', 'x', c]) []) = _
    rw [decodeAuxP_append s ['\\', 'x', c] (by rfl) hs,
      decodeAuxP_esc1, decodeAuxP_nil]
    rfl
  · show String.mk (DecoderRs.decodeAux (s ++ ['\\', 'x', c]) []) = _
    rw [decodeAuxD_append s ['\\', 'x', c] (by rfl) hs,
      decodeAuxD_esc1, decodeAuxD_nil]
    rfl
  · show String.mk (ParserRs.decodeAux (s ++ ['\\', 'x']) []) = _
    rw [decodeAuxP_append s ['\\', 'x'] (by rfl) hs,
      decodeAuxP_esc0, decodeAuxP_nil]
    rfl
  · show String.mk (DecoderRs.decodeAux (s ++ ['\\', 'x']) []) = _
    rw [decodeAuxD_append s ['\\', 'x'] (by rfl) hs,
      decodeAuxD_esc0, decodeAuxD_nil]
    rfl

/-- Witness for C3 (amended) at the concrete input "hello\x6" (and the
trailing-`\x` cases at "hello\x"). -/
theorem truncated_escape_c3_witness :
    ParserRs.decode_escape_sequences "hello\\x6" = "hello\\x6" ∧
    DecoderRs.decode_escape_sequences "hello\\x6" = "hello\\x" ∧
    ParserRs.decode_escape_sequences "hello\\x" = "hello\\x" ∧
    DecoderRs.decode_escape_sequences "hello\\x" = "hello\\x" :=
  truncated_escape_c3 "hello".data '6' (by rfl)

theorem escTrunc1_lit (c : Char) (rest : List Char)
    (h : (c == '\\' && rest.head? == some 'x') = false) :
    escTrunc1 (c :: rest) = escTrunc1 rest := by
  rw [escTrunc1.eq_def]
  simp [h]

theorem escTrunc1_esc0 : escTrunc1 ['\\', 'x'] = false := by
  rw [escTrunc1.eq_def]
  simp

theorem escTrunc1_esc1 (h1 : Char) : escTrunc1 ['\\', 'x', h1] = true := by
  rw [escTrunc1.eq_def]
  simp

theorem escTrunc1_esc2 (h1 h2 : Char) (rest2 : List Char) :
    escTrunc1 ('\\' :: 'x' :: h1 :: h2 :: rest2) = escTrunc1 rest2 := by
  rw [escTrunc1.eq_def]
  simp

/-- On every input whose scan never reaches a one-character-truncated escape,
the two escape-decoding loops agree, whatever bytes are pending. -/
theorem decodeAux_eq_of_no_trunc :
    ∀ n (cs : List Char), cs.length ≤ n → escTrunc1 cs = false → ∀ seq,
      ParserRs.decodeAux cs seq = DecoderRs.decodeAux cs seq := by
  intro n
  induction n with
  | zero =>
    intro cs hlen _ seq
    have hnil : cs = [] := List.length_eq_zero.mp (Nat.le_zero.mp hlen)
    subst hnil
    rw [decodeAuxP_nil, decodeAuxD_nil]
  | succ n ih =>
    intro cs hlen htr seq
    match cs with
    | [] => rw [decodeAuxP_nil, decodeAuxD_nil]
    | c :: rest =>
      by_cases hg : (c == '\\' && rest.head? == some 'x') = true
      · have hc : c = '\\' := by
          have := hg
          simp [Bool.and_eq_true] at this
          exact this.1
        obtain ⟨rest1, hrest⟩ : ∃ rest1, rest = 'x' :: rest1 := by
          cases rest with
          | nil => simp at hg
          | cons r rest1 =>
            have hr : r = 'x' := by
              simp [Bool.and_eq_true] at hg
              exact hg.2
            exact ⟨rest1, by rw [hr]⟩
        subst hc hrest
        match rest1 with
        | [] =>
          rw [decodeAuxP_esc0, decodeAuxD_esc0,
            decodeAuxP_nil, decodeAuxD_nil]
        | [h1] =>
          exact absurd htr (by rw [escTrunc1_esc1 h1]; simp)
        | h1 :: h2 :: rest2 =>
          have hlen2 : rest2.length ≤ n := by
            simp only [List.length_cons] at hlen
            omega
          have htr2 : escTrunc1 rest2 = false := by
            rw [escTrunc1_esc2 h1 h2 rest2] at htr
            exact htr
          rw [decodeAuxP_esc2, decodeAuxD_esc2]
          cases hpb : parseU8Hex h1 h2 with
          | some b => exact ih rest2 hlen2 htr2 (seq ++ [b])
          | none => rw [ih rest2 hlen2 htr2 seq]
      · have hg' : (c == '\\' && rest.head? == some 'x') = false :=
          Bool.eq_false_iff.mpr hg
        have hlen1 : rest.length ≤ n := by
          simp only [List.length_cons] at hlen
          omega
        have htr1 : escTrunc1 rest = false := by
          rw [escTrunc1_lit c rest hg'] at htr
          exact htr
        rw [decodeAuxP_lit c rest seq hg', decodeAuxD_lit c rest seq hg',
          ih rest hlen1 htr1 []]

/-- C9 counterexample: the two `decode_escape_sequences` implementations do
not compute the same function — on "\x6" the `src/parser.rs` one yields
"\x6" and the `src/decoder.rs` one yields "\x". -/
theorem dual_decoders_c9_counterexample :
    ParserRs.decode_escape_sequences "\\x6" = "\\x6" ∧
    DecoderRs.decode_escape_sequences "\\x6" = "\\x" ∧
    ("\\x6" : String) ≠ "\\x" :=
  ⟨by decide, by decide, by decide⟩

/-- C9 (amended): the two near-duplicate escape-decoding implementations
return identical output on every input whose scan does not end in a `\x`
escape truncated with exactly one character remaining after the `x`; on
those inputs `src/decoder.rs` drops the final character that `src/parser.rs`
preserves. -/
theorem dual_decoders_agree_c9 (s : String) (h : escTrunc1 s.data = false) :
    ParserRs.decode_escape_sequences s = DecoderRs.decode_escape_sequences s :=
  congrArg String.mk (decodeAux_eq_of_no_trunc s.data.length s.data le_rfl h [])

/-- Witness for C9 (amended) at the concrete input "\x48". -/
theorem dual_decoders_agree_c9_witness :
    ParserRs.decode_escape_sequences "\\x48" = DecoderRs.decode_escape_sequences "\\x48" ∧
    DecoderRs.decode_escape_sequences "\\x48" = "H" :=
  ⟨dual_decoders_agree_c9 "\\x48" (by decide), by decide⟩

theorem isHexChar_ne_plus {c : Char} (h : isHexChar c = true) : ¬(c = '+') := by
  intro e
  subst e
  exact absurd h (by decide)

theorem isHexChar_ne_minus {c : Char} (h : isHexChar c = true) : ¬(c = '-') := by
  intro e
  subst e
  exact absurd h (by decide)

theorem parseU8Hex_of_hex {h1 h2 : Char} (ha : isHexChar h1 = true)
    (hb : isHexChar h2 = true) :
    parseU8Hex h1 h2 = some (hexPairVal (h1, h2)) := by
  obtain ⟨a, ha'⟩ := Option.isSome_iff_exists.mp ha
  obtain ⟨b, hb'⟩ := Option.isSome_iff_exists.mp hb
  unfold parseU8Hex hexPairVal
  rw [if_neg (isHexChar_ne_plus ha), if_neg (isHexChar_ne_minus ha), ha', hb']
  simp

theorem decodeAuxP_escRun (ps : List (Char × Char))
    (h : ∀ p ∈ ps, isHexChar p.1 = true ∧ isHexChar p.2 = true) :
    ∀ seq, ParserRs.decodeAux (escRun ps) seq = utf8Lossy (seq ++ ps.map hexPairVal) := by
  induction ps with
  | nil =>
    intro seq
    simp only [escRun, List.flatMap_nil, decodeAuxP_nil, flush_eq, List.map_nil,
      List.append_nil]
  | cons p ps' ih =>
    intro seq
    have hesc : escRun (p :: ps') = '\\' :: 'x' :: p.1 :: p.2 :: escRun ps' := by
      simp [escRun]
    obtain ⟨h1h, h2h⟩ := h p (List.mem_cons_self p ps')
    rw [hesc, decodeAuxP_esc2, parseU8Hex_of_hex h1h h2h]
    show ParserRs.decodeAux (escRun ps') (seq ++ [hexPairVal (p.1, p.2)]) = _
    rw [ih (fun q hq => h q (List.mem_cons_of_mem p hq)) (seq ++ [hexPairVal (p.1, p.2)])]
    congr 1
    simp

theorem decodeAuxD_escRun (ps : List (Char × Char))
    (h : ∀ p ∈ ps, isHexChar p.1 = true ∧ isHexChar p.2 = true) :
    ∀ seq, DecoderRs.decodeAux (escRun ps) seq = utf8Lossy (seq ++ ps.map hexPairVal) := by
  induction ps with
  | nil =>
    intro seq
    simp only [escRun, List.flatMap_nil, decodeAuxD_nil, flush_eq, List.map_nil,
      List.append_nil]
  | cons p ps' ih =>
    intro seq
    have hesc : escRun (p :: ps') = '\\' :: 'x' :: p.1 :: p.2 :: escRun ps' := by
      simp [escRun]
    obtain ⟨h1h, h2h⟩ := h p (List.mem_cons_self p ps')
    rw [hesc, decodeAuxD_esc2, parseU8Hex_of_hex h1h h2h]
    show DecoderRs.decodeAux (escRun ps') (seq ++ [hexPairVal (p.1, p.2)]) = _
    rw [ih (fun q hq => h q (List.mem_cons_of_mem p hq)) (seq ++ [hexPairVal (p.1, p.2)])]
    congr 1
    simp

/-- C5: on a run of valid two-hex-digit `\xNN` escapes with no intervening
non-escape characters, the Escape-Sequence Decoder (both implementations)
buffers the denoted bytes and outputs their UTF-8 decoding as one batch. -/
theorem escape_run_c5 (ps : List (Char × Char))
    (h : ∀ p ∈ ps, isHexChar p.1 = true ∧ isHexChar p.2 = true) :
    ParserRs.decode_escape_sequences (String.mk (escRun ps)) =
      String.mk (utf8Lossy (ps.map hexPairVal)) ∧
    DecoderRs.decode_escape_sequences (String.mk (escRun ps)) =
      String.mk (utf8Lossy (ps.map hexPairVal)) := by
  constructor
  · show String.mk (ParserRs.decodeAux (escRun ps) []) = _
    rw [decodeAuxP_escRun ps h []]
    simp
  · show String.mk (DecoderRs.decodeAux (escRun ps) []) = _
    rw [decodeAuxD_escRun ps h []]
    simp

/-- Witness for C5 at the spec's example `\x48\x65\x6C\x6C\x6F` → `Hello`. -/
theorem escape_run_c5_witness :
    ParserRs.decode_escape_sequences
        (String.mk (escRun [('4', '8'), ('6', '5'), ('6', 'C'), ('6', 'C'), ('6', 'F')])) =
      "Hello" ∧
    DecoderRs.decode_escape_sequences
        (String.mk (escRun [('4', '8'), ('6', '5'), ('6', 'C'), ('6', 'C'), ('6', 'F')])) =
      "Hello" := by
  have h := escape_run_c5 [('4', '8'), ('6', '5'), ('6', 'C'), ('6', 'C'), ('6', 'F')]
    (by decide)
  exact ⟨h.1.trans (by decide), h.2.trans (by decide)⟩

/-- C4: the form-decoding path folds bracket-notation keys as specified on
the spec's two examples, with every inserted leaf value a JSON String. -/
theorem form_decoding_c4 :
    FormURLEncodedParser.parse
        (utf8Encode "key1=value1&key2=value2&arr[]=item1&arr[]=item2".data) =
      some (Json.obj [("key1", Json.str "value1"), ("key2", Json.str "value2"),
        ("arr", Json.arr [Json.str "item1", Json.str "item2"])]) ∧
    FormURLEncodedParser.parse (utf8Encode "parent[child]=value1&arr[]=item1".data) =
      some (Json.obj [("parent", Json.obj [("child", Json.str "value1")]),
        ("arr", Json.arr [Json.str "item1"])]) :=
  ⟨rfl, rfl⟩

/-- C7 counterexample: inserting `a[]=2` when `a` holds a non-Array (and
`a[b]=2` when `a` holds a non-Object) is not a fault: the insertion
succeeds (`some`), returns the map unchanged, and the conflicting value is
silently discarded. -/
theorem type_conflict_c7_counterexample :
    add_or_update_value [("a", Json.str "1")] "a[]" "2" = some [("a", Json.str "1")] ∧
    add_or_update_value [("a", Json.str "1")] "a[b]" "2" = some [("a", Json.str "1")] :=
  ⟨rfl, rfl⟩

/-- C6: a form key that splits on `[` into more than two segments (a key
with a second literal `[`, such as `a[b][c]`) is a non-recoverable fault:
`add_or_update_value` panics (`none`) for every map and value, and any parse
whose pair list contains such a key aborts as a whole — it is neither a
per-pair skip nor deeper nesting. -/
theorem multi_bracket_key_c6 (key : String) (h : 2 < (splitLB key.data).length) :
    (∀ m v, add_or_update_value m key v = none) ∧
    (∀ (pairs : List (String × String)) v, (key, v) ∈ pairs → formFold pairs = none) := by
  have habort : ∀ m v, add_or_update_value m key v = none := by
    intro m v
    cases hsp : splitLB key.data with
    | nil => rw [hsp] at h; simp at h
    | cons a t1 =>
      cases t1 with
      | nil => rw [hsp] at h; simp at h
      | cons b t2 =>
        cases t2 with
        | nil => rw [hsp] at h; simp at h
        | cons c rest =>
          unfold add_or_update_value
          rw [hsp]
  refine ⟨habort, ?_⟩
  have hfold : ∀ (pairs : List (String × String)) (m0 : List (String × Json)) v,
      (key, v) ∈ pairs →
      pairs.foldlM (fun m p => add_or_update_value m p.1 p.2) m0 = none := by
    intro pairs
    induction pairs with
    | nil =>
      intro m0 v hv
      simp at hv
    | cons q qs ih =>
      intro m0 v hv
      rw [List.foldlM_cons]
      rcases List.mem_cons.mp hv with hq | hq
      · rw [← hq]
        simp [habort m0 v]
      · cases hadd : add_or_update_value m0 q.1 q.2 with
        | none => simp
        | some m1 => simp [hadd, ih m1 v hq]
  intro pairs v hv
  exact hfold pairs [] v hv

/-- Witness for C6 at the concrete key "a[b][c]". -/
theorem multi_bracket_key_c6_witness :
    add_or_update_value [] "a[b][c]" "v" = none ∧
    formFold [("a[b][c]", "v")] = none := by
  have hc := multi_bracket_key_c6 "a[b][c]" (by decide)
  exact ⟨hc.1 [] "v", hc.2 [("a[b][c]", "v")] "v" (by simp)⟩

theorem strMkData (s : String) : String.mk s.data = s := rfl

theorem splitLB_no_bracket (a : List Char) (h : a.all (fun c => !(c == '[')) = true) :
    splitLB a = [a] := by
  induction a with
  | nil => rfl
  | cons c a' ih =>
    rw [List.all_cons, Bool.and_eq_true] at h
    have hc : (c == '[') = false := by simpa using h.1
    rw [splitLB.eq_def]
    simp only [hc, Bool.false_eq_true, if_false, ih h.2]

theorem splitLB_append (a r : List Char) (h : a.all (fun c => !(c == '[')) = true) :
    splitLB (a ++ '[' :: r) = a :: splitLB r := by
  induction a with
  | nil =>
    rw [List.nil_append, splitLB.eq_def]
    simp
  | cons c a' ih =>
    rw [List.all_cons, Bool.and_eq_true] at h
    have hc : (c == '[') = false := by simpa using h.1
    rw [List.cons_append, splitLB.eq_def]
    simp only [hc, Bool.false_eq_true, if_false, ih h.2]

theorem dropWhile_all_not (p : Char → Bool) (l : List Char)
    (h : l.all (fun c => !(p c)) = true) : l.dropWhile p = l := by
  cases l with
  | nil => rfl
  | cons c l' =>
    rw [List.all_cons, Bool.and_eq_true] at h
    have hc : p c = false := by simpa using h.1
    rw [List.dropWhile_cons_of_neg (by simp [hc])]

theorem trimEndRB_append_rb (s : List Char)
    (h : s.all (fun c => !(c == ']')) = true) :
    trimEndRB (s ++ [']']) = s := by
  unfold trimEndRB
  rw [List.reverse_append]
  simp only [List.reverse_cons, List.reverse_nil, List.nil_append, List.singleton_append]
  rw [List.dropWhile_cons_of_pos (by simp)]
  rw [dropWhile_all_not _ s.reverse (by simpa using h)]
  exact List.reverse_reverse s

/-- C7 (amended): inserting a pair whose key ends in `[]` when the value
already present at the key is not an Array — and likewise `key[sub]` when
the present value is not an Object — is not a fault: the `if let` fails
silently, the insertion succeeds and returns the map unchanged, and the new
value is discarded. -/
theorem type_conflict_c7 (m : List (String × Json)) (mainKey sub val : String) (j : Json)
    (hmk : mainKey.data.all (fun c => !(c == '[')) = true)
    (hsub : sub.data.all (fun c => !(c == '[') && !(c == ']')) = true)
    (hsubne : sub ≠ "")
    (hlook : mapLookup m mainKey = some j) :
    ((∀ xs, j ≠ Json.arr xs) → add_or_update_value m (mainKey ++ "[]") val = some m) ∧
    ((∀ ms, j ≠ Json.obj ms) →
      add_or_update_value m (mainKey ++ "[" ++ sub ++ "]") val = some m) := by
  have hsubLB : sub.data.all (fun c => !(c == '[')) = true := by
    rw [List.all_eq_true] at hsub ⊢
    intro c hc
    have h2 := hsub c hc
    simp only [Bool.and_eq_true] at h2
    exact h2.1
  have hsubRB : sub.data.all (fun c => !(c == ']')) = true := by
    rw [List.all_eq_true] at hsub ⊢
    intro c hc
    have h2 := hsub c hc
    simp only [Bool.and_eq_true] at h2
    exact h2.2
  constructor
  · intro hj
    have hkey : (mainKey ++ "[]").data = mainKey.data ++ '[' :: [']'] := by
      rw [String.data_append]
    have hsplit : splitLB (mainKey ++ "[]").data = [mainKey.data, [']']] := by
      rw [hkey, splitLB_append mainKey.data [']'] hmk]
      rfl
    unfold add_or_update_value
    rw [hsplit]
    simp only [trimEndRB, List.reverse_cons, List.reverse_nil, List.nil_append,
      List.dropWhile]
    simp only [strMkData, hlook]
    cases j with
    | arr xs => exact absurd rfl (hj xs)
    | null => rfl
    | bool b => rfl
    | num n => rfl
    | str s => rfl
    | obj ms => rfl
  · intro hj
    have hkey : (mainKey ++ "[" ++ sub ++ "]").data =
        mainKey.data ++ '[' :: (sub.data ++ [']']) := by
      rw [String.data_append, String.data_append, String.data_append]
      simp
    have hsplit : splitLB (mainKey ++ "[" ++ sub ++ "]").data =
        [mainKey.data, sub.data ++ [']']] := by
      rw [hkey, splitLB_append mainKey.data (sub.data ++ [']']) hmk,
        splitLB_no_bracket (sub.data ++ [']'])
          (by rw [List.all_append]; simp [hsubLB])]
    unfold add_or_update_value
    rw [hsplit]
    simp only [trimEndRB_append_rb sub.data hsubRB, strMkData, hlook]
    rw [if_neg hsubne]

/-- Witness for C7 (amended): `a` holds the String "1"; both `a[]=2` and
`a[b]=2` leave the map unchanged and succeed. -/
theorem type_conflict_c7_witness :
    add_or_update_value [("a", Json.str "1")] ("a" ++ "[]") "2" =
      some [("a", Json.str "1")] ∧
    add_or_update_value [("a", Json.str "1")] ("a" ++ "[" ++ "b" ++ "]") "2" =
      some [("a", Json.str "1")] := by
  have h := type_conflict_c7 [("a", Json.str "1")] "a" "b" "2" (Json.str "1")
    (by decide) (by decide) (by decide) rfl
  exact ⟨h.1 (fun xs hx => Json.noConfusion hx), h.2 (fun ms hx => Json.noConfusion hx)⟩

/-- C2 counterexample: with UTF-8 selected and the undecodable input "%FF",
`decode_input` of `src/decoder.rs` fails — but with the fixed message
"EUC-KR decoding error", which does not carry the name of the selected
charset ("UTF-8"). -/
theorem charset_error_c2_counterexample :
    decode_input "%FF" UTF_8 = Except.error "EUC-KR decoding error" ∧
    strContains "EUC-KR decoding error" UTF_8.name = false :=
  ⟨rfl, rfl⟩

/-- C2 (amended): whenever the selected encoding reports errors on the
percent-decoded bytes, `decode_input` of `src/decoder.rs` fails with the
fixed message "EUC-KR decoding error" regardless of the selected charset,
and no partial or replacement text is returned on failure. -/
theorem charset_error_c2 (enc : Encoding) (input : String)
    (h : (enc.decode (percent_decode (utf8Encode input.data))).2 = true) :
    decode_input input enc = Except.error "EUC-KR decoding error" := by
  unfold decode_input
  simp [h]

/-- Witness for C2 (amended) at the concrete input "%FF" under UTF-8. -/
theorem charset_error_c2_witness :
    decode_input "%FF" UTF_8 = Except.error "EUC-KR decoding error" :=
  charset_error_c2 UTF_8 "%FF" (by decide)

/-- C1: the Structural Parser (`parse_to_json`, modelled from the spec since
its definition is absent from src) first attempts to parse the
escape-resolved text under the standard JSON grammar; a successful parse is
returned unchanged (whatever it contains, including `key[..]`-shaped string
keys), and a JSON-parse failure is not surfaced as an error but triggers
parsing the same text as ampersand-separated key=value form pairs folded
into a JSON Object. -/
theorem structural_dispatch_c1 (s : String) :
    (∀ v, jsonParse s = some v → parse_to_json s = some v) ∧
    (jsonParse s = none →
      parse_to_json s = (formFold (formPairs (utf8Encode s.data))).map Json.obj) := by
  constructor
  · intro v h
    unfold parse_to_json
    rw [h]
  · intro h
    unfold parse_to_json
    rw [h]

/-- Witness for C1: a JSON object input with a `key[]`-shaped string key is
returned unchanged; the non-JSON input "a=1" falls back to form decoding. -/
theorem structural_dispatch_c1_witness :
    parse_to_json "\x7b\"a[]\":\"b\"\x7d" = some (Json.obj [("a[]", Json.str "b")]) ∧
    parse_to_json "a=1" = some (Json.obj [("a", Json.str "1")]) := by
  constructor
  · exact (structural_dispatch_c1 _).1 (Json.obj [("a[]", Json.str "b")]) rfl
  · have h := (structural_dispatch_c1 "a=1").2 rfl
    rw [h]
    rfl

/-- C10: for every byte input that is not valid UTF-8, both
`JsonParser::parse` and `FormURLEncodedParser::parse` return the JSON value
Null instead of signaling an error, and `JsonParser::parse` also returns
Null whenever JSON parsing of the escape-decoded text fails — failure
produces the output value Null rather than no value. -/
theorem null_on_failure_c10 (bs : List Nat) :
    (utf8Decode? bs = none →
      JsonParser.parse bs = Json.null ∧
      FormURLEncodedParser.parse bs = some Json.null) ∧
    (∀ cs, utf8Decode? bs = some cs →
      jsonParse (ParserRs.decode_escape_sequences (String.mk cs)) = none →
      JsonParser.parse bs = Json.null) := by
  constructor
  · intro h
    constructor
    · unfold JsonParser.parse
      rw [h]
    · unfold FormURLEncodedParser.parse
      rw [h]
  · intro cs hcs hj
    unfold JsonParser.parse
    rw [hcs]
    simp only [hj]

/-- Witness for C10 at the invalid UTF-8 input [0xFF] and at the valid but
non-JSON input "a=1". -/
theorem null_on_failure_c10_witness :
    JsonParser.parse [0xFF] = Json.null ∧
    FormURLEncodedParser.parse [0xFF] = some Json.null ∧
    JsonParser.parse (utf8Encode "a=1".data) = Json.null := by
  have h1 := (null_on_failure_c10 [0xFF]).1 rfl
  have h2 := (null_on_failure_c10 (utf8Encode "a=1".data)).2 "a=1".data rfl rfl
  exact ⟨h1.1, h1.2, h2⟩
